import Mathlib

/-!
Verification of the BeatCLI console audio player against its
natural-language specification.

The Rust sources are shallowly embedded: pure functions become Lean
functions, stateful code becomes explicit state passing, machine integers
become `Nat`/`Int` (with explicit range checks where the code has them),
fallible operations return `Option`, and the audio/terminal/file-system
backends (external collaborators per the spec) appear as explicit
parameters.  Randomness (rand's `SliceRandom::choose`) is embedded as a
function of an arbitrary random outcome `r : Nat`, so theorems quantify
over every possible outcome of the random choice.
-/

namespace BeatCLI

/-- Playback mode, from `playlist.rs` (`PlaybackMode`, default `Sequential`). -/
inductive PlaybackMode
  | Sequential
  | RepeatOne
  | Shuffle
deriving DecidableEq, Repr, Inhabited

/-- Rust's `#[derive(Default)]` with `#[default]` on `Sequential`. -/
def PlaybackMode.default : PlaybackMode := .Sequential

/-- A file-system path, reduced to the two queries the program makes of it:
`Path::file_name` (as a displayable string) and `Path::extension`.
Path handling itself is external I/O per the spec. -/
structure FsPath where
  name : String
  extension : Option String
deriving DecidableEq, Repr, Inhabited

/-- `is_audio` from `playlist.rs`: lower-cased extension is one of the
fixed audio extensions. -/
def is_audio (p : FsPath) : Bool :=
  match p.extension.map String.toLower with
  | some ext => ext = "mp3" || ext = "flac" || ext = "wav" || ext = "ogg"
      || ext = "m4a" || ext = "aac"
  | none => false

/-- A directory entry as produced by the external folder walker
(`WalkDir`): a path plus whether it is a regular file. -/
structure DirEntry where
  path : FsPath
  isFile : Bool
deriving DecidableEq, Repr

/-- `Playlist` from `playlist.rs`: song list, optional current index,
playback mode. -/
structure Playlist where
  items : List FsPath
  current : Option Nat
  mode : PlaybackMode
deriving DecidableEq, Repr

/-- `Playlist::default()` (all fields `Default`): empty list, no current
index, `Sequential` mode. -/
def Playlist.default : Playlist := ⟨[], none, PlaybackMode.default⟩

/-- rand's `slice.choose(&mut rng)`: `none` on an empty slice, otherwise
some element, selected here by the random outcome `r`. -/
def sliceChoose (l : List Nat) (r : Nat) : Option Nat :=
  if h : l.length = 0 then none
  else some (l.get ⟨r % l.length, Nat.mod_lt r (Nat.pos_of_ne_zero h)⟩)

/-- The candidate list built in the `Shuffle` arms of `next_index_step`
and `advance_on_finished`: all indices `0..len`, with the current index
retained out when one is set. -/
def Playlist.shuffleChoices (p : Playlist) : List Nat :=
  match p.current with
  | some cur => (List.range p.items.length).filter (fun x => x ≠ cur)
  | none => List.range p.items.length

/-- `Playlist::next_index_step` from `playlist.rs`. -/
def Playlist.next_index_step (p : Playlist) (r : Nat) : Option Nat :=
  if p.items.isEmpty then none
  else
    match p.mode with
    | .Sequential => some ((p.current.getD 0 + 1) % p.items.length)
    | .RepeatOne => p.current
    | .Shuffle =>
      match sliceChoose p.shuffleChoices r with
      | some x => some x
      | none => p.current

/-- `Playlist::next_index` (delegates to `next_index_step`). -/
def Playlist.next_index (p : Playlist) (r : Nat) : Option Nat :=
  p.next_index_step r

/-- `Playlist::prev_index` from `playlist.rs`. -/
def Playlist.prev_index (p : Playlist) (r : Nat) : Option Nat :=
  if p.items.isEmpty then none
  else
    match p.mode with
    | .Sequential | .RepeatOne =>
      let i := p.current.getD 0
      some (if i = 0 then p.items.length - 1 else i - 1)
    | .Shuffle => p.next_index_step r

/-- `Playlist::current_index`. -/
def Playlist.current_index (p : Playlist) : Option Nat :=
  p.current

/-- `Playlist::advance_on_finished`: advances `current` per the mode and
returns (new playlist state, index to play).  The `?` in the Rust
`Shuffle` arm returns `None` without mutating when both the choice and
`current` are absent. -/
def Playlist.advance_on_finished (p : Playlist) (r : Nat) : Playlist × Option Nat :=
  if p.items.isEmpty then (p, none)
  else
    match p.mode with
    | .Sequential =>
      let next :=
        match p.current with
        | some i => (i + 1) % p.items.length
        | none => 0
      ({ p with current := some next }, some next)
    | .RepeatOne => (p, p.current)
    | .Shuffle =>
      match sliceChoose p.shuffleChoices r with
      | some next => ({ p with current := some next }, some next)
      | none =>
        match p.current with
        | some next => ({ p with current := some next }, some next)
        | none => (p, none)

/-- `Playlist::scan_folder`: clears the items, resets `current` to `None`
and `mode` to `Sequential`, then pushes every walked entry that is a file
with an audio extension.  The walk itself is external I/O; its result is
the `entries` parameter.  Returns (new state, number of items). -/
def Playlist.scan_folder (_p : Playlist) (entries : List DirEntry) : Playlist × Nat :=
  let items := (entries.filter (fun e => e.isFile && is_audio e.path)).map DirEntry.path
  ({ items := items, current := none, mode := .Sequential }, items.length)

/-- `Playlist::get`. -/
def Playlist.get (p : Playlist) (idx : Nat) : Option FsPath :=
  p.items.get? idx

/-! ## Lyrics (`lyrics.rs`) -/

/-- `Lyrics` from `lyrics.rs`: millisecond timestamps (u128, embedded as
`Nat`) paired with lyric text, plus optional metadata. -/
structure Lyrics where
  lines : List (Nat × String)
  title : Option String := none
  artist : Option String := none
  album : Option String := none
deriving DecidableEq, Repr, Inhabited

/-- The `rfind` over the enumerated lines in `Lyrics::current_line_index`:
index of the last (greatest-index) entry whose timestamp is `≤ millis`,
`none` when no entry qualifies. -/
def lastLE : List (Nat × String) → Nat → Option Nat
  | [], _ => none
  | (ts, _) :: rest, millis =>
    match lastLE rest millis with
    | some j => some (j + 1)
    | none => if ts ≤ millis then some 0 else none

/-- `Lyrics::current_line_index` from `lyrics.rs`:
`rfind(ts ≤ millis).map(idx).unwrap_or(0)`. -/
def Lyrics.current_line_index (l : Lyrics) (millis : Nat) : Nat :=
  (lastLE l.lines millis).getD 0

/-- `Lyrics::len`. -/
def Lyrics.len (l : Lyrics) : Nat :=
  l.lines.length

/-! ## Player (`player.rs`)

The audio backend (rodio sink) is external; the embedded state is the
elapsed-time bookkeeping of `Player`: `started_at`, `paused_at`,
`elapsed_pause`.  `Instant`s become `Nat` millisecond timestamps and each
operation takes the current time `now` at which it occurs
(`Instant::now()` / `.elapsed()` read that clock). -/

/-- Elapsed-time bookkeeping fields of `Player`. -/
structure PlayerState where
  started_at : Option Nat
  paused_at : Option Nat
  elapsed_pause : Nat
deriving DecidableEq, Repr

/-- `Player::new()`: no track, nothing paused, zero accumulated pause. -/
def PlayerState.init : PlayerState := ⟨none, none, 0⟩

/-- `Player::play_file` (time bookkeeping on the success path): marks the
start instant and clears the pause accounting. -/
def PlayerState.play_file (_s : PlayerState) (now : Nat) : PlayerState :=
  { started_at := some now, paused_at := none, elapsed_pause := 0 }

/-- `Player::pause`: records the pause instant only if not already
paused. -/
def PlayerState.pause (s : PlayerState) (now : Nat) : PlayerState :=
  match s.paused_at with
  | none => { s with paused_at := some now }
  | some _ => s

/-- `Player::resume`: adds the just-ended pause's duration to
`elapsed_pause` and clears `paused_at`; a no-op when not paused. -/
def PlayerState.resume (s : PlayerState) (now : Nat) : PlayerState :=
  match s.paused_at with
  | some p => { s with paused_at := none, elapsed_pause := s.elapsed_pause + (now - p) }
  | none => s

/-- `Player::get_current_ms`: elapsed wall time since start minus
accumulated pause time, frozen at the pause instant while paused, `0`
when no track was started. -/
def PlayerState.get_current_ms (s : PlayerState) (now : Nat) : Nat :=
  match s.started_at with
  | none => 0
  | some start =>
    match s.paused_at with
    | some paused => (paused - start) - s.elapsed_pause
    | none => (now - start) - s.elapsed_pause

/-- A timed player operation: which of play/pause/resume was called, at
which millisecond timestamp. -/
inductive PEvent
  | play
  | pause
  | resume
deriving DecidableEq, Repr

/-- Run one timed event against the player state. -/
def PlayerState.step (s : PlayerState) : PEvent × Nat → PlayerState
  | (.play, t) => s.play_file t
  | (.pause, t) => s.pause t
  | (.resume, t) => s.resume t

/-- Run a sequence of timed events against the player state. -/
def PlayerState.run (s : PlayerState) (trace : List (PEvent × Nat)) : PlayerState :=
  trace.foldl PlayerState.step s

/-- The event times of a trace are nondecreasing and start no earlier
than `t0`. -/
def chron : Nat → List (PEvent × Nat) → Bool
  | _, [] => true
  | t0, (_, t) :: rest => decide (t0 ≤ t) && chron t rest

/-- The time of the last event of a trace (`t0` for the empty trace). -/
def endTime : Nat → List (PEvent × Nat) → Nat
  | t0, [] => t0
  | _, (_, t) :: rest => endTime t rest

/-- Modelled from the spec: the reference elapsed-time accountant.  It is
`idle` until a track starts; `playing since acc` accumulates `acc`
milliseconds from closed Playing intervals plus the currently open one
started at `since`; `paused acc` holds the frozen total.  `refElapsed`
reads the sum of all Playing intervals at a given time. -/
inductive RefMode
  | idle
  | playing (since : Nat) (acc : Nat)
  | paused (acc : Nat)
deriving DecidableEq, Repr

/-- Modelled from the spec: starting a track resets the accumulator to
zero; pausing closes the open Playing interval; resuming opens a new
one; pause while paused and resume while playing change nothing. -/
def refStep : RefMode → PEvent × Nat → RefMode
  | _, (.play, t) => .playing t 0
  | .playing since acc, (.pause, t) => .paused (acc + (t - since))
  | m, (.pause, _) => m
  | .paused acc, (.resume, t) => .playing t acc
  | m, (.resume, _) => m

/-- Modelled from the spec: run the reference accountant over a trace,
starting idle. -/
def refRun (trace : List (PEvent × Nat)) : RefMode :=
  trace.foldl refStep .idle

/-- Modelled from the spec: the sum of all Playing intervals at time
`now` — closed intervals plus the open one when playing, the frozen sum
when paused, `0` when no track ever started. -/
def refElapsed : RefMode → Nat → Nat
  | .idle, _ => 0
  | .playing since acc, now => acc + (now - since)
  | .paused acc, _ => acc

/-! ## Commands (`command.rs`) -/

/-- The `Command` enum from `command.rs`.  `usize` and `u8` payloads are
embedded as `Nat`. -/
inductive Command
  | Help
  | Quit
  | Folder (path : String)
  | List
  | Search (q : String)
  | PlayIndex (n : Nat)
  | Pause
  | Resume
  | Next
  | Prev
  | Mode (m : PlaybackMode)
  | Volume (v : Nat)
  | Lyrics
  | LyricsMode
  | Now
  | Unknown (s : String)
deriving DecidableEq, Repr

/-- Digit run to number: `none` unless the characters are one or more
ASCII digits. -/
def digitsToNat? (cs : List Char) : Option Nat :=
  if cs.isEmpty then none
  else if cs.all Char.isDigit then
    some (cs.foldl (fun acc c => acc * 10 + (c.toNat - '0'.toNat)) 0)
  else none

/-- Rust's `str::parse::<i32>()`: optional sign, one or more digits,
rejecting values outside the i32 range. -/
def parseI32 (cs : List Char) : Option Int :=
  let (sign, digits) :=
    match cs with
    | '+' :: rest => ((1 : Int), rest)
    | '-' :: rest => ((-1 : Int), rest)
    | cs => ((1 : Int), cs)
  match digitsToNat? digits with
  | none => none
  | some n =>
    let v : Int := sign * n
    if v < -(2 ^ 31) ∨ 2 ^ 31 - 1 < v then none else some v

/-- Rust's `str::parse::<usize>()` (64-bit): optional `+`, one or more
digits, rejecting values `≥ 2^64`. -/
def parseUsize (cs : List Char) : Option Nat :=
  let digits :=
    match cs with
    | '+' :: rest => rest
    | cs => cs
  match digitsToNat? digits with
  | none => none
  | some n => if 2 ^ 64 ≤ n then none else some n

/-- ASCII lower-casing of a character, as `str::to_lowercase` acts on the
ASCII keywords and mode arguments the parser compares against. -/
def charLower (c : Char) : Char :=
  if 'A' ≤ c ∧ c ≤ 'Z' then Char.ofNat (c.toNat + 32) else c

/-- Rust's `str::trim`: strip whitespace from both ends. -/
def trimChars (cs : List Char) : List Char :=
  ((cs.dropWhile Char.isWhitespace).reverse.dropWhile Char.isWhitespace).reverse

/-- Rust's `str::split_whitespace`: the maximal non-whitespace runs, in
order (the accumulator holds the current run, reversed). -/
def splitWSChars : List Char → List Char → List (List Char)
  | [], acc => if acc.isEmpty then [] else [acc.reverse]
  | c :: rest, acc =>
    if c.isWhitespace then
      if acc.isEmpty then splitWSChars rest []
      else acc.reverse :: splitWSChars rest []
    else splitWSChars rest (c :: acc)

/-- `Vec::join(" ")` over tokens, as the folder/search arms rebuild their
argument. -/
def joinSpace : List (List Char) → List Char
  | [] => []
  | [x] => x
  | x :: xs => x ++ ' ' :: joinSpace xs

/-- `parse_command` from `command.rs`: trims the line, requires a leading
`/`, lower-cases the keyword, and dispatches with space-separated
arguments.  Strings are processed as their character lists; message
strings are reproduced verbatim. -/
def parse_command (line : String) : Command :=
  let t := trimChars line.data
  if t.head? ≠ some '/' then Command.Unknown (String.mk t)
  else
    let parts := splitWSChars t.tail []
    let cmd := (parts.headD []).map charLower
    let args := parts.tail
    if cmd = "help".data then Command.Help
    else if cmd = "quit".data ∨ cmd = "exit".data ∨ cmd = "q".data ∨ cmd = "e".data then
      Command.Quit
    else if cmd = "folder".data ∨ cmd = "f".data then
      if (joinSpace args).isEmpty then
        Command.Unknown "/folder 命令需要指定路径参数，例如: /folder C:\\Music"
      else Command.Folder (String.mk (joinSpace args))
    else if cmd = "list".data ∨ cmd = "ls".data then Command.List
    else if cmd = "search".data then
      if (joinSpace args).isEmpty then
        Command.Unknown "/search 命令需要指定搜索关键词，例如: /search 周杰伦"
      else Command.Search (String.mk (joinSpace args))
    else if cmd = "play".data then
      match args.head? with
      | some n =>
        match parseUsize n with
        | some idx1 =>
          if idx1 = 0 then Command.Unknown "歌曲序号从 1 开始，不能为 0"
          else Command.PlayIndex idx1
        | none => Command.Unknown ("无效的歌曲序号: " ++ String.mk n ++ "，请输入数字")
      | none => Command.PlayIndex 1
    else if cmd = "pause".data then Command.Pause
    else if cmd = "resume".data then Command.Resume
    else if cmd = "next".data then Command.Next
    else if cmd = "prev".data ∨ cmd = "back".data then Command.Prev
    else if cmd = "mode".data ∨ cmd = "m".data then
      if (args.headD []).map charLower = "sequential".data
          ∨ (args.headD []).map charLower = "seq".data then
        Command.Mode .Sequential
      else if (args.headD []).map charLower = "repeatone".data
          ∨ (args.headD []).map charLower = "one".data then
        Command.Mode .RepeatOne
      else if (args.headD []).map charLower = "shuffle".data
          ∨ (args.headD []).map charLower = "shu".data then
        Command.Mode .Shuffle
      else if ((args.headD []).map charLower).isEmpty then
        Command.Unknown
          "/mode 命令需要指定模式参数: sequential(顺序), repeatone(单曲循环), shuffle(随机)"
      else
        Command.Unknown
          ("无效的播放模式: " ++ String.mk ((args.headD []).map charLower)
            ++ "，支持: sequential, repeatone, shuffle")
    else if cmd = "volume".data ∨ cmd = "vol".data then
      match args.head? with
      | some v =>
        match parseI32 v with
        | some vv =>
          if vv < 0 ∨ 100 < vv then
            Command.Unknown ("音量值必须在 0-100 范围内，输入的值: " ++ toString vv)
          else Command.Volume (max 0 (min vv 100)).toNat
        | none =>
          Command.Unknown ("无效的音量值: " ++ String.mk v ++ "，请输入 0-100 之间的数字")
      | none => Command.Unknown "/volume 命令需要指定音量值，例如: /volume 80"
    else if cmd = "lyrics".data ∨ cmd = "lrc".data then Command.Lyrics
    else if cmd = "lmode".data ∨ cmd = "lm".data then Command.LyricsMode
    else if cmd = "now".data then Command.Now
    else Command.Unknown (String.mk t)

/-! ## Command handlers (`main.rs`)

Terminal rendering and the audio sink are external; the embedded parts of
each handler are its playlist/UI state changes, which flash message it
emits, whether it hands a file to `player.play_file`, and which scale it
passes to `player.set_volume`.  `path.exists()` is a file-system query,
passed in as the predicate `exOn`. -/

/-- `FlashLevel` from `ui.rs`. -/
inductive FlashLevel
  | Info
  | Ok
  | Error
deriving DecidableEq, Repr

/-- The fields of `UiState` (`ui.rs`) that the verified handlers touch. -/
structure Ui where
  volume : Option Nat
  mode : PlaybackMode
deriving DecidableEq, Repr

/-- `UiState::default()` restricted to the embedded fields. -/
def Ui.default : Ui := ⟨none, PlaybackMode.default⟩

/-- What a track-starting handler did: resulting playlist, the index
handed to `player.play_file` (`none` = no track started), the scale
passed to `player.set_volume`, and the flash message it emitted. -/
structure SongStep where
  playlist : Playlist
  started : Option Nat
  volumeSet : Option ℚ
  message : Option (String × FlashLevel)
deriving DecidableEq, Repr

/-- The volume scale applied right after `play_file` in `main.rs`:
`ui.volume.unwrap_or(50) as f32 / 100.0`, embedded over `ℚ`. -/
def playVolScale (ui : Ui) : ℚ :=
  (ui.volume.getD 50 : ℚ) / 100

/-- The scale built in the `Command::Volume` arm:
`(v as f32 / 100.0).clamp(0.0, 1.0)`, embedded over `ℚ`. -/
def volScale (v : Nat) : ℚ :=
  if (v : ℚ) / 100 < 0 then 0
  else if 1 < (v : ℚ) / 100 then 1
  else (v : ℚ) / 100

/-- The shared empty-playlist rejection (`check_playlist_empty`). -/
def emptyPlaylistMsg : String := "播放列表为空，请先使用 /folder 添加歌曲"

/-- `play_song` from `main.rs`: out-of-range index does nothing at all
(the Rust `if let` falls through); a missing file is reported and changes
nothing; otherwise `current := i`, the file starts playing at the last
used volume.  (The success flash also notes loaded lyrics when the
external sidecar exists; lyric loading is external I/O and the message
text is modeled without that suffix.) -/
def play_song (p : Playlist) (ui : Ui) (exOn : FsPath → Bool) (i : Nat) : SongStep :=
  match p.get i with
  | none => ⟨p, none, none, none⟩
  | some path =>
    if exOn path then
      ⟨{ p with current := some i }, some i, some (playVolScale ui),
        some ("开始播放: " ++ path.name, .Ok)⟩
    else
      ⟨p, none, none, some ("歌曲文件不存在: " ++ path.name, .Error)⟩

/-- The `Command::PlayIndex` arm of `handle_command`: empty playlist and
1-based out-of-range rejections, then 0-based conversion and
`play_song`. -/
def handle_play_index (p : Playlist) (ui : Ui) (exOn : FsPath → Bool) (i : Nat) : SongStep :=
  if p.items.length = 0 then ⟨p, none, none, some (emptyPlaylistMsg, .Error)⟩
  else if p.items.length < i then
    ⟨p, none, none,
      some ("歌曲序号超出范围，当前播放列表有 " ++ toString p.items.length
        ++ " 首歌曲，请输入 1-" ++ toString p.items.length ++ " 之间的数字", .Error)⟩
  else
    play_song p ui exOn (if 0 < i ∧ i ≤ p.items.length then i - 1 else 0)

/-- `next_song` from `main.rs`: a single-song playlist is rejected with
an informational flash and nothing else happens; otherwise the navigator
picks the next index, `current` moves there and that track starts.  (The
Rust `pl.get(next_idx).cloned().unwrap()` is modeled with a `""` fallback
name; the index is in range in every reachable state, proved below.) -/
def next_song (p : Playlist) (ui : Ui) (r : Nat) : SongStep :=
  if p.items.length = 1 then
    ⟨p, none, none, some ("只有一首歌曲，无法切换到下一首", .Info)⟩
  else
    match p.next_index_step r with
    | some next_idx =>
      ⟨{ p with current := some next_idx }, some next_idx, some (playVolScale ui),
        some ("已切换到下一首: " ++ ((p.get next_idx).map FsPath.name).getD "", .Ok)⟩
    | none =>
      match p.mode with
      | .Sequential => ⟨p, none, none, some ("已经是最后一首，顺序播放模式下不循环", .Info)⟩
      | _ => ⟨p, none, none, some ("无法获取下一首歌曲", .Error)⟩

/-- `prev_song` from `main.rs`, mirror image of `next_song` via
`prev_index`. -/
def prev_song (p : Playlist) (ui : Ui) (r : Nat) : SongStep :=
  if p.items.length = 1 then
    ⟨p, none, none, some ("只有一首歌曲，无法切换到上一首", .Info)⟩
  else
    match p.prev_index r with
    | some prev_idx =>
      ⟨{ p with current := some prev_idx }, some prev_idx, some (playVolScale ui),
        some ("已切换到上一首: " ++ ((p.get prev_idx).map FsPath.name).getD "", .Ok)⟩
    | none =>
      match p.mode with
      | .Sequential => ⟨p, none, none, some ("已经是第一首，顺序播放模式下不循环", .Info)⟩
      | _ => ⟨p, none, none, some ("无法获取上一首歌曲", .Error)⟩

/-- The `Command::Next` arm: empty-playlist guard, then `next_song`. -/
def handle_next (p : Playlist) (ui : Ui) (r : Nat) : SongStep :=
  if p.items.isEmpty then ⟨p, none, none, some (emptyPlaylistMsg, .Error)⟩
  else next_song p ui r

/-- The `Command::Prev` arm: empty-playlist guard, then `prev_song`. -/
def handle_prev (p : Playlist) (ui : Ui) (r : Nat) : SongStep :=
  if p.items.isEmpty then ⟨p, none, none, some (emptyPlaylistMsg, .Error)⟩
  else prev_song p ui r

/-- The mode display names used by the `Command::Mode` arm. -/
def mode_name : PlaybackMode → String
  | .Sequential => "顺序播放模式"
  | .RepeatOne => "单曲循环模式"
  | .Shuffle => "随机播放模式"

/-- The `Command::Mode` arm of `handle_command`: empty-playlist guard,
no-op (with a flash) when the mode is unchanged, otherwise sets
`pl.mode` and mirrors it into `ui.mode`. -/
def handle_mode (p : Playlist) (ui : Ui) (mode : PlaybackMode) :
    Playlist × Ui × Option (String × FlashLevel) :=
  if p.items.isEmpty then (p, ui, some (emptyPlaylistMsg, .Error))
  else if p.mode = mode then (p, ui, some ("已经是" ++ mode_name mode, .Info))
  else ({ p with mode := mode }, { ui with mode := mode },
    some ("已切换到" ++ mode_name mode, .Ok))

/-- Result of the `Command::Volume` arm: UI state, scale passed to
`player.set_volume` (`none` = not applied), flash message. -/
structure VolumeOut where
  ui : Ui
  backendScale : Option ℚ
  message : Option (String × FlashLevel)
deriving DecidableEq, Repr

/-- The `Command::Volume` arm of `handle_command`: empty-playlist guard,
`is_playing` guard (current index present), then apply the clamped scale
to the backend and store `v` as the last used volume. -/
def handle_volume (p : Playlist) (ui : Ui) (v : Nat) : VolumeOut :=
  if p.items.isEmpty then ⟨ui, none, some (emptyPlaylistMsg, .Error)⟩
  else if p.current = none then
    ⟨ui, none, some ("当前没有播放歌曲，无法调节音量", .Error)⟩
  else
    ⟨{ ui with volume := some v }, some (volScale v),
      some ("音量设置为: " ++ toString v ++ "%", .Ok)⟩

/-! ## Reachable playlist/UI states

The application state the three threads share, together with every
operation that mutates it, as a step function; reachability is running
any operation sequence from the initial state. -/

/-- The shared application state (`AppState` in `main.rs`), restricted to
the embedded fields. -/
structure AppSt where
  playlist : Playlist
  ui : Ui
deriving DecidableEq, Repr

/-- The initial shared state built in `main`. -/
def AppSt.init : AppSt := ⟨Playlist.default, Ui.default⟩

/-- Every playlist-state-mutating operation: folder rescan, the play
command (1-based), next/prev, the tick-driven auto-advance, mode change
and volume change.  Random outcomes and walked directory entries are
payloads. -/
inductive Op
  | scan (entries : List DirEntry)
  | playIdx (i : Nat)
  | next (r : Nat)
  | prev (r : Nat)
  | advance (r : Nat)
  | setMode (m : PlaybackMode)
  | setVolume (v : Nat)

/-- Apply one operation to the shared state. -/
def applyOp (exOn : FsPath → Bool) (st : AppSt) : Op → AppSt
  | .scan es => { st with playlist := (st.playlist.scan_folder es).1 }
  | .playIdx i => { st with playlist := (handle_play_index st.playlist st.ui exOn i).playlist }
  | .next r => { st with playlist := (handle_next st.playlist st.ui r).playlist }
  | .prev r => { st with playlist := (handle_prev st.playlist st.ui r).playlist }
  | .advance r => { st with playlist := (st.playlist.advance_on_finished r).1 }
  | .setMode m =>
    let res := handle_mode st.playlist st.ui m
    ⟨res.1, res.2.1⟩
  | .setVolume v => { st with ui := (handle_volume st.playlist st.ui v).ui }

/-- Run a sequence of operations from a state. -/
def runOps (exOn : FsPath → Bool) (st : AppSt) : List Op → AppSt
  | [] => st
  | op :: rest => runOps exOn (applyOp exOn st op) rest

/-- The data-model invariant: the current index, when present, is within
the song list. -/
def currentInv (p : Playlist) : Prop :=
  ∀ i, p.current = some i → i < p.items.length

/-- Simulation relation between the player's elapsed-time bookkeeping and
the reference accountant, at a point where all events up to time `tl`
have been processed: idle states coincide, and in playing/paused states
the code's `start + elapsed_pause + acc` recovers the reference resume
point / pause point, which lies no later than `tl`. -/
def PRel (s : PlayerState) (m : RefMode) (tl : Nat) : Prop :=
  match s.started_at with
  | none => m = RefMode.idle
  | some st =>
    match s.paused_at with
    | none =>
      ∃ since acc, m = RefMode.playing since acc
        ∧ st + s.elapsed_pause + acc = since ∧ since ≤ tl
    | some p =>
      ∃ acc, m = RefMode.paused acc
        ∧ st + s.elapsed_pause + acc = p ∧ p ≤ tl

/-! ## Navigation lemmas -/

theorem sliceChoose_mem {l : List Nat} {r x : Nat} (h : sliceChoose l r = some x) :
    x ∈ l := by
  unfold sliceChoose at h
  split at h
  · exact absurd h (by simp)
  · simp only [Option.some.injEq] at h
    exact h ▸ List.get_mem l _ _

theorem sliceChoose_eq_none {l : List Nat} {r : Nat} (h : sliceChoose l r = none) :
    l = [] := by
  unfold sliceChoose at h
  split at h
  · exact List.length_eq_zero.mp (by assumption)
  · exact absurd h (by simp)

theorem mem_shuffleChoices {p : Playlist} {x : Nat} (h : x ∈ p.shuffleChoices) :
    x < p.items.length ∧ ∀ c, p.current = some c → x ≠ c := by
  obtain ⟨items, current, mode⟩ := p
  cases current with
  | none =>
    simp only [Playlist.shuffleChoices] at h
    refine ⟨List.mem_range.mp h, ?_⟩
    intro c hcc
    exact absurd hcc (by simp)
  | some cur =>
    simp only [Playlist.shuffleChoices] at h
    have h2 := List.mem_filter.mp h
    refine ⟨List.mem_range.mp h2.1, ?_⟩
    intro c hcc
    have hc : cur = c := by simpa using hcc
    subst hc
    simpa using h2.2

theorem shuffleChoices_ne_nil {p : Playlist} (hlen : 1 < p.items.length) :
    p.shuffleChoices ≠ [] := by
  obtain ⟨items, current, mode⟩ := p
  simp only at hlen
  cases current with
  | none =>
    simp only [Playlist.shuffleChoices, ne_eq, List.range_eq_nil]
    omega
  | some cur =>
    simp only [Playlist.shuffleChoices]
    intro hnil
    have hmem : (if cur = 0 then 1 else 0) ∈
        List.filter (fun x => decide (x ≠ cur)) (List.range items.length) := by
      rw [List.mem_filter, List.mem_range]
      constructor
      · split <;> omega
      · split
        · next hcz => simp [hcz]
        · next hcz => simp; omega
    rw [hnil] at hmem
    exact absurd hmem (List.not_mem_nil _)

theorem shuffleChoices_ne_nil_of_none {p : Playlist} (hne : p.items ≠ [])
    (hc : p.current = none) : p.shuffleChoices ≠ [] := by
  unfold Playlist.shuffleChoices
  rw [hc]
  simp only [ne_eq, List.range_eq_nil]
  exact fun h => hne (List.length_eq_zero.mp h)

theorem next_index_step_lt {p : Playlist} {r v : Nat} (hinv : currentInv p)
    (h : p.next_index_step r = some v) : v < p.items.length := by
  unfold Playlist.next_index_step at h
  by_cases hE : p.items.isEmpty = true
  · rw [if_pos hE] at h
    cases h
  · rw [if_neg hE] at h
    have hlen : 0 < p.items.length := by
      rw [List.isEmpty_iff] at hE
      exact List.length_pos.mpr hE
    cases hm : p.mode with
    | Sequential =>
      rw [hm] at h
      simp only [Option.some.injEq] at h
      exact h ▸ Nat.mod_lt _ hlen
    | RepeatOne =>
      rw [hm] at h
      exact hinv v h
    | Shuffle =>
      rw [hm] at h
      cases hs : sliceChoose p.shuffleChoices r with
      | some x =>
        rw [hs] at h
        simp only [Option.some.injEq] at h
        exact h ▸ (mem_shuffleChoices (sliceChoose_mem hs)).1
      | none =>
        rw [hs] at h
        exact hinv v h

theorem sliceChoose_isSome {l : List Nat} (hne : l ≠ []) (r : Nat) :
    ∃ x, sliceChoose l r = some x := by
  unfold sliceChoose
  split
  · next h => exact absurd (List.length_eq_zero.mp h) hne
  · exact ⟨_, rfl⟩

theorem currentInv_some {items : List FsPath} {c : Nat} {m : PlaybackMode}
    (h : c < items.length) : currentInv ⟨items, some c, m⟩ := by
  intro i hi
  have hci := Option.some.inj hi
  simpa [hci] using h

theorem currentInv_none {items : List FsPath} {m : PlaybackMode} :
    currentInv ⟨items, none, m⟩ :=
  fun _ hi => nomatch hi

theorem prev_index_lt {p : Playlist} {r v : Nat} (hinv : currentInv p)
    (h : p.prev_index r = some v) : v < p.items.length := by
  unfold Playlist.prev_index at h
  by_cases hE : p.items.isEmpty = true
  · rw [if_pos hE] at h
    cases h
  · rw [if_neg hE] at h
    have hlen : 0 < p.items.length := by
      rw [List.isEmpty_iff] at hE
      exact List.length_pos.mpr hE
    cases hm : p.mode with
    | Shuffle =>
      rw [hm] at h
      exact next_index_step_lt hinv h
    | Sequential =>
      rw [hm] at h
      simp only [Option.some.injEq] at h
      subst h
      cases hc : p.current with
      | none => simp [hc]; omega
      | some c =>
        have := hinv c hc
        simp only [hc, Option.getD_some]
        split <;> omega
    | RepeatOne =>
      rw [hm] at h
      simp only [Option.some.injEq] at h
      subst h
      cases hc : p.current with
      | none => simp [hc]; omega
      | some c =>
        have := hinv c hc
        simp only [hc, Option.getD_some]
        split <;> omega

/-! ## Claim C2 -/

/-- C2 counterexample: on the non-empty playlist `[a.mp3]` in `RepeatOne`
mode with no current index set, `next_index` returns `none` rather than a
value in `[0, length)`, refuting the claim that `next_index` always
returns a value regardless of whether a current index is set. -/
theorem c2_counterexample :
    (Playlist.mk [⟨"a.mp3", some "mp3"⟩] none PlaybackMode.RepeatOne).next_index 0
      = none := rfl

/-- C2 (amended): for every playback mode and every non-empty song list
whose current index (if any) is in range, `prev_index` always returns a
value in `[0, length)`, and `next_index` does too except in `RepeatOne`
mode with no current index set, where it returns `none`. -/
theorem c2_amended (p : Playlist) (r : Nat) (hne : p.items ≠ [])
    (hinv : currentInv p) :
    (∃ v, p.prev_index r = some v ∧ v < p.items.length)
    ∧ (¬(p.mode = PlaybackMode.RepeatOne ∧ p.current = none) →
        ∃ v, p.next_index r = some v ∧ v < p.items.length) := by
  have hE : ¬ p.items.isEmpty = true := by
    rw [List.isEmpty_iff]
    exact hne
  have hlen : 0 < p.items.length := List.length_pos.mpr hne
  have hnext : ¬(p.mode = PlaybackMode.RepeatOne ∧ p.current = none) →
      ∃ v, p.next_index r = some v ∧ v < p.items.length := by
    intro hno
    unfold Playlist.next_index Playlist.next_index_step
    rw [if_neg hE]
    cases hm : p.mode with
    | Sequential => exact ⟨_, rfl, Nat.mod_lt _ hlen⟩
    | RepeatOne =>
      cases hc : p.current with
      | none => exact absurd ⟨hm, hc⟩ hno
      | some c => exact ⟨c, rfl, hinv c hc⟩
    | Shuffle =>
      cases hs : sliceChoose p.shuffleChoices r with
      | some x =>
        exact ⟨x, rfl, (mem_shuffleChoices (sliceChoose_mem hs)).1⟩
      | none =>
        cases hc : p.current with
        | none =>
          exact absurd (sliceChoose_eq_none hs) (shuffleChoices_ne_nil_of_none hne hc)
        | some c =>
          exact ⟨c, rfl, hinv c hc⟩
  refine ⟨?_, hnext⟩
  unfold Playlist.prev_index
  rw [if_neg hE]
  cases hm : p.mode with
  | Shuffle =>
    exact hnext (by rw [hm]; simp)
  | Sequential =>
    cases hc : p.current with
    | none =>
      refine ⟨p.items.length - 1, ?_, by omega⟩
      simp [hc]
    | some c =>
      have := hinv c hc
      refine ⟨if c = 0 then p.items.length - 1 else c - 1, ?_, by split <;> omega⟩
      simp [hc]
  | RepeatOne =>
    cases hc : p.current with
    | none =>
      refine ⟨p.items.length - 1, ?_, by omega⟩
      simp [hc]
    | some c =>
      have := hinv c hc
      refine ⟨if c = 0 then p.items.length - 1 else c - 1, ?_, by split <;> omega⟩
      simp [hc]

/-- Witness for `c2_amended` on a concrete two-song Sequential playlist
with current index 0. -/
theorem c2_amended_witness :
    (∃ v, (Playlist.mk [⟨"a.mp3", some "mp3"⟩, ⟨"b.mp3", some "mp3"⟩]
        (some 0) PlaybackMode.Sequential).prev_index 7 = some v
      ∧ v < (Playlist.mk [⟨"a.mp3", some "mp3"⟩, ⟨"b.mp3", some "mp3"⟩]
        (some 0) PlaybackMode.Sequential).items.length)
    ∧ (¬((Playlist.mk [⟨"a.mp3", some "mp3"⟩, ⟨"b.mp3", some "mp3"⟩]
          (some 0) PlaybackMode.Sequential).mode = PlaybackMode.RepeatOne
        ∧ (Playlist.mk [⟨"a.mp3", some "mp3"⟩, ⟨"b.mp3", some "mp3"⟩]
          (some 0) PlaybackMode.Sequential).current = none) →
        ∃ v, (Playlist.mk [⟨"a.mp3", some "mp3"⟩, ⟨"b.mp3", some "mp3"⟩]
          (some 0) PlaybackMode.Sequential).next_index 7 = some v
          ∧ v < (Playlist.mk [⟨"a.mp3", some "mp3"⟩, ⟨"b.mp3", some "mp3"⟩]
            (some 0) PlaybackMode.Sequential).items.length) :=
  c2_amended _ 7 (by simp) (currentInv_some (by simp))

/-! ## Claim C7 -/

/-- C7: under `Shuffle` on a list of length > 1 with a current index set,
`next_index` returns a value and that value is never the current index,
for every outcome `r` of the random choice. -/
theorem c7_shuffle_excludes_current (p : Playlist) (c r : Nat)
    (hm : p.mode = PlaybackMode.Shuffle) (hlen : 1 < p.items.length)
    (hc : p.current = some c) :
    ∃ v, p.next_index r = some v ∧ v ≠ c := by
  have hne : p.shuffleChoices ≠ [] := shuffleChoices_ne_nil hlen
  obtain ⟨x, hx⟩ := sliceChoose_isSome hne r
  have hmem := mem_shuffleChoices (sliceChoose_mem hx)
  refine ⟨x, ?_, hmem.2 c hc⟩
  unfold Playlist.next_index Playlist.next_index_step
  have hE : ¬ p.items.isEmpty = true := by
    rw [List.isEmpty_iff]
    intro hnil
    rw [hnil] at hlen
    simp at hlen
  rw [if_neg hE, hm]
  show (match sliceChoose p.shuffleChoices r with
        | some y => some y
        | none => p.current) = some x
  rw [hx]

/-- Witness for `c7_shuffle_excludes_current` on a concrete two-song
Shuffle playlist with current index 0 and random outcome 5. -/
theorem c7_witness :
    ∃ v, (Playlist.mk [⟨"a.mp3", some "mp3"⟩, ⟨"b.mp3", some "mp3"⟩]
      (some 0) PlaybackMode.Shuffle).next_index 5 = some v ∧ v ≠ 0 :=
  c7_shuffle_excludes_current _ 0 5 rfl (by simp) rfl

/-! ## Frame lemmas: no operation but the mode command and the rescan
touches the mode field -/

theorem play_song_mode (p : Playlist) (ui : Ui) (exOn : FsPath → Bool) (i : Nat) :
    (play_song p ui exOn i).playlist.mode = p.mode := by
  unfold play_song
  split
  · rfl
  · split <;> rfl

theorem handle_play_index_mode (p : Playlist) (ui : Ui) (exOn : FsPath → Bool) (i : Nat) :
    (handle_play_index p ui exOn i).playlist.mode = p.mode := by
  unfold handle_play_index
  split
  · rfl
  · split
    · rfl
    · exact play_song_mode p ui exOn _

theorem next_song_mode (p : Playlist) (ui : Ui) (r : Nat) :
    (next_song p ui r).playlist.mode = p.mode := by
  unfold next_song
  split
  · rfl
  · split
    · rfl
    · split <;> rfl

theorem prev_song_mode (p : Playlist) (ui : Ui) (r : Nat) :
    (prev_song p ui r).playlist.mode = p.mode := by
  unfold prev_song
  split
  · rfl
  · split
    · rfl
    · split <;> rfl

theorem advance_on_finished_mode (p : Playlist) (r : Nat) :
    ((p.advance_on_finished r).1).mode = p.mode := by
  unfold Playlist.advance_on_finished
  split
  · rfl
  · split
    · split <;> rfl
    · rfl
    · split
      · rfl
      · split <;> rfl

theorem scan_folder_mode (p : Playlist) (entries : List DirEntry) :
    ((p.scan_folder entries).1).mode = PlaybackMode.Sequential := rfl

theorem handle_mode_sets (p : Playlist) (ui : Ui) (m : PlaybackMode)
    (hne : p.items ≠ []) : ((handle_mode p ui m).1).mode = m := by
  unfold handle_mode
  split
  · next hE => exact absurd (List.isEmpty_iff.mp hE) hne
  · split
    · next heq => exact heq
    · rfl

/-! ## Claim C4 -/

/-- C4 counterexample: a folder rescan on a playlist in `Shuffle` mode
leaves the mode field `Sequential`, not `Shuffle` — `scan_folder` does
not leave the mode unchanged. -/
theorem c4_counterexample :
    ((Playlist.mk [⟨"a.mp3", some "mp3"⟩] none PlaybackMode.Shuffle).scan_folder []).1.mode
      = PlaybackMode.Sequential
    ∧ PlaybackMode.Sequential ≠ PlaybackMode.Shuffle := by
  exact ⟨rfl, by decide⟩

/-- C4 (amended): the playback mode defaults to `Sequential` and persists
across track changes — playing a requested index, next, prev and
auto-advance all leave the mode field unchanged; it is changed by the
explicit user mode command, and a folder rescan resets it to `Sequential`
rather than leaving it unchanged. -/
theorem c4_amended :
    Playlist.default.mode = PlaybackMode.Sequential
    ∧ (∀ p entries, ((Playlist.scan_folder p entries).1).mode = PlaybackMode.Sequential)
    ∧ (∀ p ui exOn i, (play_song p ui exOn i).playlist.mode = p.mode)
    ∧ (∀ p ui exOn i, (handle_play_index p ui exOn i).playlist.mode = p.mode)
    ∧ (∀ p ui r, (next_song p ui r).playlist.mode = p.mode)
    ∧ (∀ p ui r, (prev_song p ui r).playlist.mode = p.mode)
    ∧ (∀ p r, ((Playlist.advance_on_finished p r).1).mode = p.mode)
    ∧ (∀ p ui m, p.items ≠ [] → ((handle_mode p ui m).1).mode = m) :=
  ⟨rfl, scan_folder_mode, play_song_mode, handle_play_index_mode,
    next_song_mode, prev_song_mode, advance_on_finished_mode, handle_mode_sets⟩

/-- Witness for `c4_amended`: switching a concrete non-empty playlist to
`Shuffle` through the mode command. -/
theorem c4_amended_witness :
    (Playlist.mk [⟨"a.mp3", some "mp3"⟩] none PlaybackMode.Sequential).items ≠ []
    ∧ ((handle_mode (Playlist.mk [⟨"a.mp3", some "mp3"⟩] none PlaybackMode.Sequential)
        (Ui.mk none PlaybackMode.Sequential) PlaybackMode.Shuffle).1).mode
      = PlaybackMode.Shuffle :=
  ⟨by simp, c4_amended.2.2.2.2.2.2.2 _ _ _ (by simp)⟩

/-! ## Claim C6 -/

theorem currentInv_update {p : Playlist} {v : Nat} (h : v < p.items.length) :
    currentInv { p with current := some v } := by
  intro i hi
  have hvi := Option.some.inj hi
  simpa [hvi] using h

theorem play_song_inv {p : Playlist} {ui : Ui} {exOn : FsPath → Bool} {i : Nat}
    (hinv : currentInv p) : currentInv (play_song p ui exOn i).playlist := by
  unfold play_song
  split
  · exact hinv
  · rename_i path hg
    split
    · unfold Playlist.get at hg
      obtain ⟨hlt, -⟩ := List.get?_eq_some.mp hg
      exact currentInv_update hlt
    · exact hinv

theorem handle_play_index_inv {p : Playlist} {ui : Ui} {exOn : FsPath → Bool} {i : Nat}
    (hinv : currentInv p) : currentInv (handle_play_index p ui exOn i).playlist := by
  unfold handle_play_index
  split
  · exact hinv
  · split
    · exact hinv
    · exact play_song_inv hinv

theorem next_song_inv {p : Playlist} {ui : Ui} {r : Nat}
    (hinv : currentInv p) : currentInv (next_song p ui r).playlist := by
  unfold next_song
  split
  · exact hinv
  · cases hs : p.next_index_step r with
    | some idx => exact currentInv_update (next_index_step_lt hinv hs)
    | none => cases p.mode <;> exact hinv

theorem prev_song_inv {p : Playlist} {ui : Ui} {r : Nat}
    (hinv : currentInv p) : currentInv (prev_song p ui r).playlist := by
  unfold prev_song
  split
  · exact hinv
  · cases hs : p.prev_index r with
    | some idx => exact currentInv_update (prev_index_lt hinv hs)
    | none => cases p.mode <;> exact hinv

theorem advance_on_finished_inv {p : Playlist} {r : Nat}
    (hinv : currentInv p) : currentInv (p.advance_on_finished r).1 := by
  unfold Playlist.advance_on_finished
  by_cases hE : p.items.isEmpty = true
  · rw [if_pos hE]
    exact hinv
  · rw [if_neg hE]
    have hlen : 0 < p.items.length :=
      List.length_pos.mpr (fun hnil => hE (List.isEmpty_iff.mpr hnil))
    cases hm : p.mode with
    | Sequential =>
      cases hc : p.current with
      | none => exact currentInv_update hlen
      | some j => exact currentInv_update (Nat.mod_lt _ hlen)
    | RepeatOne => exact hinv
    | Shuffle =>
      cases hs : sliceChoose p.shuffleChoices r with
      | some nxt =>
        exact currentInv_update (mem_shuffleChoices (sliceChoose_mem hs)).1
      | none =>
        cases hc : p.current with
        | none => exact hinv
        | some c => exact currentInv_update (hinv c hc)

theorem handle_mode_inv {p : Playlist} {ui : Ui} {m : PlaybackMode}
    (hinv : currentInv p) : currentInv (handle_mode p ui m).1 := by
  unfold handle_mode
  split
  · exact hinv
  · split
    · exact hinv
    · intro i hi
      exact hinv i hi

theorem applyOp_inv {exOn : FsPath → Bool} {st : AppSt}
    (hinv : currentInv st.playlist) (op : Op) :
    currentInv (applyOp exOn st op).playlist := by
  cases op with
  | scan es => exact fun i hi => nomatch hi
  | playIdx i => exact handle_play_index_inv hinv
  | next r =>
    show currentInv (handle_next st.playlist st.ui r).playlist
    unfold handle_next
    split
    · exact hinv
    · exact next_song_inv hinv
  | prev r =>
    show currentInv (handle_prev st.playlist st.ui r).playlist
    unfold handle_prev
    split
    · exact hinv
    · exact prev_song_inv hinv
  | advance r => exact advance_on_finished_inv hinv
  | setMode m => exact handle_mode_inv hinv
  | setVolume v => exact hinv

theorem runOps_inv {exOn : FsPath → Bool} :
    ∀ (ops : List Op) {st : AppSt}, currentInv st.playlist →
      currentInv (runOps exOn st ops).playlist
  | [], _, h => h
  | _ :: rest, _, h => runOps_inv rest (applyOp_inv h _)

/-- C6: in every reachable application state — any sequence of playlist
mutations (rescan, play at a requested index, next, prev, auto-advance,
mode change, volume change) run from the initial state, under any
file-system and any random outcomes — the current index, if present, is
strictly less than the song list length. -/
theorem c6_reachable_current_in_range (exOn : FsPath → Bool) (ops : List Op) :
    currentInv (runOps exOn AppSt.init ops).playlist :=
  runOps_inv ops (fun _ hi => nomatch hi)

/-! ## Claim C5 -/

/-- C5 counterexample: the input line `help`, consisting of exactly the
`help` keyword with no `/` prefix, parses to the unknown-command
rejection, not to the Help command — a `/` prefix is required. -/
theorem c5_counterexample :
    parse_command "help" = Command.Unknown "help"
    ∧ parse_command "help" ≠ Command.Help :=
  ⟨rfl, by decide⟩

/-- C5 (amended): every keyword of the command table, prefixed with `/`
and given its space-separated arguments, parses to the corresponding
typed command, and the keyword is case-insensitive; without the `/`
prefix a line is an unknown-command rejection. -/
theorem c5_amended :
    parse_command "/help" = Command.Help
    ∧ parse_command "/quit" = Command.Quit
    ∧ parse_command "/exit" = Command.Quit
    ∧ parse_command "/folder C:\\Music" = Command.Folder "C:\\Music"
    ∧ parse_command "/list" = Command.List
    ∧ parse_command "/search abc" = Command.Search "abc"
    ∧ parse_command "/play 2" = Command.PlayIndex 2
    ∧ parse_command "/play" = Command.PlayIndex 1
    ∧ parse_command "/pause" = Command.Pause
    ∧ parse_command "/resume" = Command.Resume
    ∧ parse_command "/next" = Command.Next
    ∧ parse_command "/prev" = Command.Prev
    ∧ parse_command "/mode sequential" = Command.Mode PlaybackMode.Sequential
    ∧ parse_command "/mode repeatone" = Command.Mode PlaybackMode.RepeatOne
    ∧ parse_command "/mode shuffle" = Command.Mode PlaybackMode.Shuffle
    ∧ parse_command "/volume 80" = Command.Volume 80
    ∧ parse_command "/lyrics" = Command.Lyrics
    ∧ parse_command "/lmode" = Command.LyricsMode
    ∧ parse_command "/now" = Command.Now
    ∧ parse_command "/HELP" = Command.Help
    ∧ parse_command "/MODE SHUFFLE" = Command.Mode PlaybackMode.Shuffle
    ∧ parse_command "/Volume 80" = Command.Volume 80
    ∧ parse_command "play 2" = Command.Unknown "play 2" :=
  ⟨rfl, rfl, rfl, rfl, rfl, rfl, rfl, rfl, rfl, rfl, rfl, rfl, rfl, rfl, rfl,
    rfl, rfl, rfl, rfl, rfl, rfl, rfl, rfl⟩

/-! ## Claim C3 -/

/-- C3 counterexample: the volume command with out-of-range argument 150
is rejected at parse time with a range-error message; it does not become
a Volume command, so no clamped value is applied. -/
theorem c3_counterexample :
    parse_command "/volume 150" = Command.Unknown "音量值必须在 0-100 范围内，输入的值: 150"
    ∧ parse_command "/volume 150" ≠ Command.Volume 100 :=
  ⟨rfl, by decide⟩

/-- C3 (amended): an out-of-range volume argument (such as 150 or -5) is
refused at parse time with a range-error message and causes no state
change; the `clamp` in the parser is reached only by in-range values.  An
in-range argument v parses to Volume v; with a track current it is
applied to the backend as v/100 (clamped into `[0,1]`, a no-op for v ≤
100) and stored as the last used volume, and a track start passes the
stored volume (default 50) divided by 100 to the backend. -/
theorem c3_amended :
    parse_command "/volume 150" = Command.Unknown "音量值必须在 0-100 范围内，输入的值: 150"
    ∧ parse_command "/volume -5" = Command.Unknown "音量值必须在 0-100 范围内，输入的值: -5"
    ∧ parse_command "/volume 80" = Command.Volume 80
    ∧ (∀ p ui v, ¬ p.items.isEmpty = true → ¬ p.current = none →
        handle_volume p ui v = ⟨{ ui with volume := some v }, some (volScale v),
          some ("音量设置为: " ++ toString v ++ "%", FlashLevel.Ok)⟩)
    ∧ (∀ v : Nat, v ≤ 100 → volScale v = (v : ℚ) / 100 ∧ 0 ≤ volScale v ∧ volScale v ≤ 1)
    ∧ (∀ (ui : Ui) (v : Nat), ui.volume = some v → playVolScale ui = (v : ℚ) / 100)
    ∧ (∀ p ui exOn i path, p.get i = some path → exOn path = true →
        (play_song p ui exOn i).volumeSet = some (playVolScale ui)) := by
  refine ⟨rfl, rfl, rfl, ?_, ?_, ?_, ?_⟩
  · intro p ui v h1 h2
    unfold handle_volume
    rw [if_neg h1, if_neg h2]
  · intro v hv
    have h0 : (0 : ℚ) ≤ (v : ℚ) / 100 := by positivity
    have h1 : (v : ℚ) / 100 ≤ 1 := by
      rw [div_le_one (by norm_num)]
      exact_mod_cast hv
    unfold volScale
    rw [if_neg (not_lt.mpr h0), if_neg (not_lt.mpr h1)]
    exact ⟨rfl, h0, h1⟩
  · intro ui v h
    unfold playVolScale
    rw [h, Option.getD_some]
  · intro p ui exOn i path hg hex
    simp [play_song, hg, hex]

/-- Witness for `c3_amended`: applying `volume 80` on a concrete playing
playlist stores 80 and hands the 0.8 scale to the backend; the scale is
in `[0,1]`. -/
theorem c3_amended_witness :
    handle_volume (Playlist.mk [⟨"a.mp3", some "mp3"⟩] (some 0) PlaybackMode.Sequential)
        (Ui.mk none PlaybackMode.Sequential) 80
      = ⟨{ Ui.mk none PlaybackMode.Sequential with volume := some 80 }, some (volScale 80),
          some ("音量设置为: " ++ toString 80 ++ "%", FlashLevel.Ok)⟩
    ∧ (volScale 80 = (80 : ℚ) / 100 ∧ 0 ≤ volScale 80 ∧ volScale 80 ≤ 1) :=
  ⟨c3_amended.2.2.2.1 _ _ 80 (by decide) (by decide),
    c3_amended.2.2.2.2.1 80 (by decide)⟩

/-! ## Lyric lookup characterization -/

/-- The `rfind`-style lookup is exactly "the greatest index whose
timestamp is ≤ the position": either no entry qualifies and it is `none`,
or it returns a qualifying index that bounds every qualifying index. -/
theorem lastLE_spec (l : List (Nat × String)) (m : Nat) :
    (lastLE l m = none ∧ ∀ i (h : i < l.length), m < (l.get ⟨i, h⟩).1)
    ∨ (∃ j, ∃ hj : j < l.length, lastLE l m = some j ∧ (l.get ⟨j, hj⟩).1 ≤ m
        ∧ ∀ i (hi : i < l.length), (l.get ⟨i, hi⟩).1 ≤ m → i ≤ j) := by
  induction l with
  | nil => exact Or.inl ⟨rfl, fun i h => absurd h (by simp)⟩
  | cons hd tl ih =>
    obtain ⟨ts, s⟩ := hd
    rcases ih with ⟨hnone, hall⟩ | ⟨j, hj, hsome, hle, hmax⟩
    · by_cases hts : ts ≤ m
      · refine Or.inr ⟨0, by simp, ?_, by simpa using hts, ?_⟩
        · simp [lastLE, hnone, hts]
        · intro i hi hle2
          cases i with
          | zero => exact Nat.le_refl 0
          | succ k =>
            exfalso
            have hk : k < tl.length := by simp only [List.length_cons] at hi; omega
            have hgt := hall k hk
            rw [List.get_cons_succ] at hle2
            omega
      · refine Or.inl ⟨by simp [lastLE, hnone, hts], ?_⟩
        intro i hi
        cases i with
        | zero => exact not_le.mp hts
        | succ k =>
          rw [List.get_cons_succ]
          exact hall k (by simp only [List.length_cons] at hi; omega)
    · refine Or.inr ⟨j + 1, by simp only [List.length_cons]; omega, ?_, ?_, ?_⟩
      · simp [lastLE, hsome]
      · rw [List.get_cons_succ]
        exact hle
      · intro i hi hle2
        cases i with
        | zero => omega
        | succ k =>
          have hk : k < tl.length := by simp only [List.length_cons] at hi; omega
          rw [List.get_cons_succ] at hle2
          have := hmax k hk hle2
          omega

/-! ## Claim C1 -/

/-- C1 counterexample: on the document with a single line at timestamp
100, queried at position 50 (strictly before the first timestamp, so no
entry qualifies — the underlying `rfind` is `none`), `current_line_index`
returns the index 0, not "no index". -/
theorem c1_counterexample :
    (Lyrics.mk [(100, "x")] none none none).current_line_index 50 = 0
    ∧ lastLE [(100, "x")] 50 = none :=
  ⟨rfl, rfl⟩

/-- C1 (amended): `current_line_index` returns the greatest line index
whose timestamp is ≤ the position whenever at least one entry qualifies;
when the document is empty or every timestamp exceeds the position it
returns 0 (the `unwrap_or(0)` fallback) rather than "no index". -/
theorem c1_amended (l : Lyrics) (m : Nat) :
    ((∀ i (h : i < l.lines.length), m < (l.lines.get ⟨i, h⟩).1) →
        l.current_line_index m = 0)
    ∧ (∀ i (h : i < l.lines.length), (l.lines.get ⟨i, h⟩).1 ≤ m →
        ∃ h2 : l.current_line_index m < l.lines.length,
          (l.lines.get ⟨l.current_line_index m, h2⟩).1 ≤ m
          ∧ i ≤ l.current_line_index m) := by
  rcases lastLE_spec l.lines m with ⟨hnone, hall⟩ | ⟨j, hj, hsome, hle, hmax⟩
  · constructor
    · intro _
      unfold Lyrics.current_line_index
      rw [hnone]
      rfl
    · intro i h hle
      exact absurd hle (not_le.mpr (hall i h))
  · constructor
    · intro hgt
      exact absurd hle (not_le.mpr (hgt j hj))
    · intro i hi hlei
      have hcl : l.current_line_index m = j := by
        unfold Lyrics.current_line_index
        rw [hsome]
        rfl
      rw [hcl]
      exact ⟨hj, hle, hmax i hi hlei⟩

/-- Witness for `c1_amended`: a document whose timestamps all exceed the
position yields index 0, and on `[(0, a), (10, b)]` at position 10 the
entry at index 1 qualifies and the result is a greatest qualifying
index. -/
theorem c1_amended_witness :
    (Lyrics.mk [(7, "a")] none none none).current_line_index 3 = 0
    ∧ ∃ h2 : (Lyrics.mk [(0, "a"), (10, "b")] none none none).current_line_index 10
        < (Lyrics.mk [(0, "a"), (10, "b")] none none none).lines.length,
      ((Lyrics.mk [(0, "a"), (10, "b")] none none none).lines.get
        ⟨(Lyrics.mk [(0, "a"), (10, "b")] none none none).current_line_index 10, h2⟩).1 ≤ 10
      ∧ 1 ≤ (Lyrics.mk [(0, "a"), (10, "b")] none none none).current_line_index 10 :=
  ⟨(c1_amended (Lyrics.mk [(7, "a")] none none none) 3).1 (by decide),
    (c1_amended (Lyrics.mk [(0, "a"), (10, "b")] none none none) 10).2 1 (by decide)
      (by decide)⟩

/-! ## Claim C8 -/

/-- C8: for a fixed lyric document sorted ascending by timestamp,
`current_line_index` is monotonically non-decreasing in the position.
(The proof does not even need the sortedness hypothesis, which the claim
assumes: the greatest qualifying index grows with the position, and the
0-fallback is least.) -/
theorem c8_monotone (l : Lyrics) (p1 p2 : Nat)
    (_hs : l.lines.Sorted (fun a b => a.1 ≤ b.1)) (h12 : p1 ≤ p2) :
    l.current_line_index p1 ≤ l.current_line_index p2 := by
  rcases lastLE_spec l.lines p1 with ⟨hnone, -⟩ | ⟨j, hj, hsome, hle, -⟩
  · unfold Lyrics.current_line_index
    rw [hnone]
    exact Nat.zero_le _
  · have hle2 : (l.lines.get ⟨j, hj⟩).1 ≤ p2 := le_trans hle h12
    rcases lastLE_spec l.lines p2 with ⟨-, hall2⟩ | ⟨j2, hj2, hsome2, -, hmax2⟩
    · exact absurd hle2 (not_le.mpr (hall2 j hj))
    · unfold Lyrics.current_line_index
      rw [hsome, hsome2]
      simpa using hmax2 j hj hle2

/-- Witness for `c8_monotone` on the sorted document
`[(0, a), (10, b)]` at positions 3 ≤ 12. -/
theorem c8_monotone_witness :
    (Lyrics.mk [(0, "a"), (10, "b")] none none none).current_line_index 3
      ≤ (Lyrics.mk [(0, "a"), (10, "b")] none none none).current_line_index 12 :=
  c8_monotone (Lyrics.mk [(0, "a"), (10, "b")] none none none) 3 12
    (by simp) (by decide)

/-! ## Claim C9 -/

/-- One timed event preserves the simulation between the player's
bookkeeping and the reference accountant. -/
theorem prel_step {s : PlayerState} {m : RefMode} {tl : Nat}
    (h : PRel s m tl) {e : PEvent} {t : Nat} (ht : tl ≤ t) :
    PRel (s.step (e, t)) (refStep m (e, t)) t := by
  obtain ⟨sa, pa, ep⟩ := s
  cases e with
  | play =>
    cases m <;>
      exact show ∃ since acc, RefMode.playing t 0 = RefMode.playing since acc
          ∧ t + 0 + acc = since ∧ since ≤ t from ⟨t, 0, rfl, by omega, Nat.le_refl t⟩
  | pause =>
    cases pa with
    | none =>
      cases sa with
      | none =>
        have hm : m = RefMode.idle := h
        subst hm
        rfl
      | some st =>
        have h2 : ∃ since acc, m = RefMode.playing since acc
            ∧ st + ep + acc = since ∧ since ≤ tl := h
        obtain ⟨since, acc, hm, heq, hsince⟩ := h2
        subst hm
        exact show ∃ a, RefMode.paused (acc + (t - since)) = RefMode.paused a
            ∧ st + ep + a = t ∧ t ≤ t
          from ⟨acc + (t - since), rfl, by omega, Nat.le_refl t⟩
    | some p =>
      cases sa with
      | none =>
        have hm : m = RefMode.idle := h
        subst hm
        rfl
      | some st =>
        have h2 : ∃ acc, m = RefMode.paused acc
            ∧ st + ep + acc = p ∧ p ≤ tl := h
        obtain ⟨acc, hm, heq, hple⟩ := h2
        subst hm
        exact show ∃ a, RefMode.paused acc = RefMode.paused a
            ∧ st + ep + a = p ∧ p ≤ t
          from ⟨acc, rfl, heq, by omega⟩
  | resume =>
    cases pa with
    | none =>
      cases sa with
      | none =>
        have hm : m = RefMode.idle := h
        subst hm
        rfl
      | some st =>
        have h2 : ∃ since acc, m = RefMode.playing since acc
            ∧ st + ep + acc = since ∧ since ≤ tl := h
        obtain ⟨since, acc, hm, heq, hsince⟩ := h2
        subst hm
        exact show ∃ s a, RefMode.playing since acc = RefMode.playing s a
            ∧ st + ep + a = s ∧ s ≤ t
          from ⟨since, acc, rfl, heq, by omega⟩
    | some p =>
      cases sa with
      | none =>
        have hm : m = RefMode.idle := h
        subst hm
        rfl
      | some st =>
        have h2 : ∃ acc, m = RefMode.paused acc
            ∧ st + ep + acc = p ∧ p ≤ tl := h
        obtain ⟨acc, hm, heq, hple⟩ := h2
        subst hm
        exact show ∃ s a, RefMode.playing t acc = RefMode.playing s a
            ∧ st + (ep + (t - p)) + a = s ∧ s ≤ t
          from ⟨t, acc, rfl, by omega, Nat.le_refl t⟩

/-- Running a chronological trace preserves the simulation up to the
trace's last event time. -/
theorem prel_run : ∀ (trace : List (PEvent × Nat)) {s : PlayerState} {m : RefMode}
    {t0 : Nat}, PRel s m t0 → chron t0 trace = true →
    PRel (s.run trace) (trace.foldl refStep m) (endTime t0 trace)
  | [], _, _, _, h, _ => h
  | (e, t) :: rest, s, m, t0, h, hc => by
    simp only [chron, Bool.and_eq_true, decide_eq_true_eq] at hc
    exact prel_run rest (prel_step h hc.1) hc.2

/-- In simulation, the reported elapsed time agrees with the reference
sum of Playing intervals at every time from the last event on. -/
theorem prel_elapsed {s : PlayerState} {m : RefMode} {tl now : Nat}
    (h : PRel s m tl) (hle : tl ≤ now) :
    s.get_current_ms now = refElapsed m now := by
  obtain ⟨sa, pa, ep⟩ := s
  cases sa with
  | none =>
    have hm : m = RefMode.idle := h
    subst hm
    rfl
  | some st =>
    cases pa with
    | none =>
      have h2 : ∃ since acc, m = RefMode.playing since acc
          ∧ st + ep + acc = since ∧ since ≤ tl := h
      obtain ⟨since, acc, hm, heq, hsince⟩ := h2
      subst hm
      show (now - st) - ep = acc + (now - since)
      omega
    | some p =>
      have h2 : ∃ acc, m = RefMode.paused acc
          ∧ st + ep + acc = p ∧ p ≤ tl := h
      obtain ⟨acc, hm, heq, hple⟩ := h2
      subst hm
      show (p - st) - ep = acc
      omega

/-- C9: for every chronological sequence of play/pause/resume calls at
their occurrence times and every query time at or after the last call,
the reported `get_current_ms` equals the reference sum of all Playing
intervals since the track started — paused time is excluded no matter how
many pause/resume cycles occur, repeated pause does not restart the pause
clock, resume neither loses nor double-counts time, and a new track
resets the total to zero. -/
theorem c9_elapsed_time (trace : List (PEvent × Nat)) (now : Nat)
    (hchron : chron 0 trace = true) (hend : endTime 0 trace ≤ now) :
    (PlayerState.init.run trace).get_current_ms now
      = refElapsed (refRun trace) now :=
  prel_elapsed (prel_run trace (by rfl) hchron) hend

/-- Witness for `c9_elapsed_time`: play at 0, pause at 10, resume at 30,
pause again at 50, queried at time 100 — both sides report the two
Playing intervals `[0,10]` and `[30,50]`, i.e. 30 ms. -/
theorem c9_elapsed_time_witness :
    chron 0 [(PEvent.play, 0), (PEvent.pause, 10), (PEvent.resume, 30),
        (PEvent.pause, 50)] = true
    ∧ endTime 0 [(PEvent.play, 0), (PEvent.pause, 10), (PEvent.resume, 30),
        (PEvent.pause, 50)] ≤ 100
    ∧ (PlayerState.init.run [(PEvent.play, 0), (PEvent.pause, 10),
        (PEvent.resume, 30), (PEvent.pause, 50)]).get_current_ms 100
      = refElapsed (refRun [(PEvent.play, 0), (PEvent.pause, 10),
        (PEvent.resume, 30), (PEvent.pause, 50)]) 100
    ∧ (PlayerState.init.run [(PEvent.play, 0), (PEvent.pause, 10),
        (PEvent.resume, 30), (PEvent.pause, 50)]).get_current_ms 100 = 30 :=
  ⟨by decide, by decide,
    c9_elapsed_time [(PEvent.play, 0), (PEvent.pause, 10), (PEvent.resume, 30),
      (PEvent.pause, 50)] 100 (by decide) (by decide),
    by decide⟩

/-! ## Claim C10 -/

/-- C10 counterexample: on a one-song playlist in `RepeatOne` mode with
no current index set, the navigator-level `next_index` returns `none`,
not the single index 0 — so "next_index would return that single index
under Sequential and RepeatOne" fails in the no-current corner. -/
theorem c10_counterexample :
    (Playlist.mk [⟨"a.mp3", some "mp3"⟩] none PlaybackMode.RepeatOne).next_index 3
      ≠ some 0 := by
  decide

/-- C10 (amended): when the playlist contains exactly one song, the next
and prev commands are rejected with an informational flash message and
change nothing — no track is handed to the player and the playlist state
(current index included) is untouched — even though the navigator-level
`next_index` and `prev_index` would return that single index under
`Sequential` (always), and under `RepeatOne` for `prev_index` always and
for `next_index` whenever a current index is set (with no current index
set, `RepeatOne`'s `next_index` returns `none`). -/
theorem c10_amended (p : Playlist) (ui : Ui) (r : Nat)
    (h1 : p.items.length = 1) (hinv : currentInv p) :
    (next_song p ui r).playlist = p
    ∧ (next_song p ui r).started = none
    ∧ (next_song p ui r).message = some ("只有一首歌曲，无法切换到下一首", FlashLevel.Info)
    ∧ (prev_song p ui r).playlist = p
    ∧ (prev_song p ui r).started = none
    ∧ (prev_song p ui r).message = some ("只有一首歌曲，无法切换到上一首", FlashLevel.Info)
    ∧ (p.mode = PlaybackMode.Sequential →
        p.next_index r = some 0 ∧ p.prev_index r = some 0)
    ∧ (p.mode = PlaybackMode.RepeatOne →
        p.prev_index r = some 0 ∧ (p.current ≠ none → p.next_index r = some 0)) := by
  have hne : ¬ p.items.isEmpty = true := by
    rw [List.isEmpty_iff]
    intro hnil
    rw [hnil] at h1
    simp at h1
  have hns : next_song p ui r
      = ⟨p, none, none, some ("只有一首歌曲，无法切换到下一首", FlashLevel.Info)⟩ := by
    unfold next_song
    rw [if_pos h1]
  have hps : prev_song p ui r
      = ⟨p, none, none, some ("只有一首歌曲，无法切换到上一首", FlashLevel.Info)⟩ := by
    unfold prev_song
    rw [if_pos h1]
  have hprev : p.prev_index r = some 0 ∨ p.mode = PlaybackMode.Shuffle := by
    cases hm : p.mode with
    | Shuffle => exact Or.inr rfl
    | Sequential =>
      refine Or.inl ?_
      unfold Playlist.prev_index
      rw [if_neg hne, hm]
      show some (if p.current.getD 0 = 0 then p.items.length - 1
        else p.current.getD 0 - 1) = some 0
      cases hc : p.current with
      | none => simp [h1]
      | some c =>
        have hcl := hinv c hc
        have hc0 : c = 0 := by omega
        subst hc0
        simp [h1]
    | RepeatOne =>
      refine Or.inl ?_
      unfold Playlist.prev_index
      rw [if_neg hne, hm]
      show some (if p.current.getD 0 = 0 then p.items.length - 1
        else p.current.getD 0 - 1) = some 0
      cases hc : p.current with
      | none => simp [h1]
      | some c =>
        have hcl := hinv c hc
        have hc0 : c = 0 := by omega
        subst hc0
        simp [h1]
  refine ⟨by rw [hns], by rw [hns], by rw [hns], by rw [hps], by rw [hps], by rw [hps],
    ?_, ?_⟩
  · intro hm
    constructor
    · unfold Playlist.next_index Playlist.next_index_step
      rw [if_neg hne, hm]
      show some ((p.current.getD 0 + 1) % p.items.length) = some 0
      rw [h1]
      simp [Nat.mod_one]
    · rcases hprev with hp0 | hsh
      · exact hp0
      · rw [hm] at hsh
        cases hsh
  · intro hm
    constructor
    · rcases hprev with hp0 | hsh
      · exact hp0
      · rw [hm] at hsh
        cases hsh
    · intro hcne
      cases hc : p.current with
      | none => exact absurd hc hcne
      | some c =>
        have hcl := hinv c hc
        have hc0 : c = 0 := by omega
        subst hc0
        unfold Playlist.next_index Playlist.next_index_step
        rw [if_neg hne, hm, hc]

/-- Witness for `c10_amended` on a concrete one-song Sequential playlist
with current index 0. -/
theorem c10_amended_witness :
    (next_song (Playlist.mk [⟨"a.mp3", some "mp3"⟩] (some 0) PlaybackMode.Sequential)
        (Ui.mk none PlaybackMode.Sequential) 2).playlist
      = Playlist.mk [⟨"a.mp3", some "mp3"⟩] (some 0) PlaybackMode.Sequential
    ∧ (next_song (Playlist.mk [⟨"a.mp3", some "mp3"⟩] (some 0) PlaybackMode.Sequential)
        (Ui.mk none PlaybackMode.Sequential) 2).started = none
    ∧ (next_song (Playlist.mk [⟨"a.mp3", some "mp3"⟩] (some 0) PlaybackMode.Sequential)
        (Ui.mk none PlaybackMode.Sequential) 2).message
      = some ("只有一首歌曲，无法切换到下一首", FlashLevel.Info)
    ∧ (prev_song (Playlist.mk [⟨"a.mp3", some "mp3"⟩] (some 0) PlaybackMode.Sequential)
        (Ui.mk none PlaybackMode.Sequential) 2).playlist
      = Playlist.mk [⟨"a.mp3", some "mp3"⟩] (some 0) PlaybackMode.Sequential
    ∧ (prev_song (Playlist.mk [⟨"a.mp3", some "mp3"⟩] (some 0) PlaybackMode.Sequential)
        (Ui.mk none PlaybackMode.Sequential) 2).started = none
    ∧ (prev_song (Playlist.mk [⟨"a.mp3", some "mp3"⟩] (some 0) PlaybackMode.Sequential)
        (Ui.mk none PlaybackMode.Sequential) 2).message
      = some ("只有一首歌曲，无法切换到上一首", FlashLevel.Info)
    ∧ ((Playlist.mk [⟨"a.mp3", some "mp3"⟩] (some 0) PlaybackMode.Sequential).mode
          = PlaybackMode.Sequential →
        (Playlist.mk [⟨"a.mp3", some "mp3"⟩] (some 0) PlaybackMode.Sequential).next_index 2
          = some 0
        ∧ (Playlist.mk [⟨"a.mp3", some "mp3"⟩] (some 0) PlaybackMode.Sequential).prev_index 2
          = some 0)
    ∧ ((Playlist.mk [⟨"a.mp3", some "mp3"⟩] (some 0) PlaybackMode.Sequential).mode
          = PlaybackMode.RepeatOne →
        (Playlist.mk [⟨"a.mp3", some "mp3"⟩] (some 0) PlaybackMode.Sequential).prev_index 2
          = some 0
        ∧ ((Playlist.mk [⟨"a.mp3", some "mp3"⟩] (some 0) PlaybackMode.Sequential).current
            ≠ none →
          (Playlist.mk [⟨"a.mp3", some "mp3"⟩] (some 0) PlaybackMode.Sequential).next_index 2
            = some 0)) :=
  c10_amended (Playlist.mk [⟨"a.mp3", some "mp3"⟩] (some 0) PlaybackMode.Sequential)
    (Ui.mk none PlaybackMode.Sequential) 2 (by decide) (currentInv_some (by decide))

end BeatCLI
